import Mathlib

/-!
Verification of the core planning logic of the pallet calculator
(src/app.py): the layer-pattern selector (lines 84-100) and the pallet
stacking planner (lines 102-146).

The Python functions are shallowly embedded: Python integers become Int,
Python floor division and modulo become Int.fdiv and Int.fmod, the input
dict (insertion ordered) becomes an association list, and the imperative
loop over the layer queue becomes structural recursion carrying the
accumulated pallet list and the current pallet.
-/

/-- One row of the input table: footprint length and width, box height,
requested quantity, and the opaque display color. -/
structure ItemData where
  L : Int
  W : Int
  H : Int
  QTY : Int
  Color : String
deriving DecidableEq

/-- The record returned by get_best_layer_pattern. -/
structure LayerPattern where
  count : Int
  cols : Int
  rows : Int
  box_w_view : Int
  box_d_view : Int
  rotated : Bool
deriving DecidableEq

/-- One queued layer: item name, kind (the string full or rem), and the
number of boxes it carries. -/
structure LayerInstance where
  name : String
  type : String
  count : Int
deriving DecidableEq

/-- Per-item metadata stored in item_specs. -/
structure ItemSpec where
  h : Int
  color : String
  pattern : LayerPattern
  orig_l : Int
  orig_w : Int
deriving DecidableEq

/-- A pallet under construction or finalized: its layers bottom-to-top and
its running total height. -/
structure Pallet where
  layers : List LayerInstance
  current_h : Int
deriving DecidableEq

/-- Embedding of get_best_layer_pattern (src/app.py lines 84-100): two
candidate tilings, unrotated and rotated 90 degrees, keeping the one with
the larger count and the unrotated one on ties. -/
def get_best_layer_pattern (p_w p_d b_l b_w : Int) : LayerPattern :=
  let cols1 := p_w.fdiv b_l
  let rows1 := p_d.fdiv b_w
  let count1 := cols1 * rows1
  let cols2 := p_w.fdiv b_w
  let rows2 := p_d.fdiv b_l
  let count2 := cols2 * rows2
  if count1 ≥ count2 then
    { count := count1, cols := cols1, rows := rows1,
      box_w_view := b_l, box_d_view := b_w, rotated := false }
  else
    { count := count2, cols := cols2, rows := rows2,
      box_w_view := b_w, box_d_view := b_l, rotated := true }

/-- The queue fragment one item contributes (src/app.py lines 115-127):
full_layers copies of a full layer, then one remainder layer when the
remainder is positive.  Python range of a negative number is empty, which
Int.toNat reproduces. -/
def layersForItem (n : String) (per_layer total_qty : Int) : List LayerInstance :=
  let full_layers := total_qty.fdiv per_layer
  let remainder := total_qty.fmod per_layer
  List.replicate full_layers.toNat { name := n, type := "full", count := per_layer } ++
    (if remainder > 0 then [{ name := n, type := "rem", count := remainder }] else [])

/-- Embedding of the first loop of calculate_pallet_plan (src/app.py lines
106-127): walk the items in input order, skip an item whose quantity is
non-positive or whose pattern count is zero, and otherwise contribute its
queue fragment and its item_specs entry. -/
def processItems (pallet_w pallet_d : Int) :
    List (String × ItemData) → List LayerInstance × List (String × ItemSpec)
  | [] => ([], [])
  | (n, data) :: rest =>
    let pat := get_best_layer_pattern pallet_w pallet_d data.L data.W
    if data.QTY ≤ 0 then processItems pallet_w pallet_d rest
    else if pat.count = 0 then processItems pallet_w pallet_d rest
    else
      let r := processItems pallet_w pallet_d rest
      (layersForItem n pat.count data.QTY ++ r.1,
       (n, { h := data.H, color := data.Color, pattern := pat,
             orig_l := data.L, orig_w := data.W }) :: r.2)

/-- Lookup item_specs[name].h.  In the composed planner the queue only holds
names that are keys of item_specs, so the default branch is unreachable. -/
def specH (specs : List (String × ItemSpec)) (n : String) : Int :=
  match specs.find? (fun p => p.1 == n) with
  | some p => p.2.h
  | none => 0

/-- Embedding of the second loop of calculate_pallet_plan (src/app.py lines
132-144): greedy placement of the queue onto pallets, then the final flush
of the current pallet when it holds at least one layer. -/
def stackLayers (item_specs : List (String × ItemSpec)) (limit_h pallet_h : Int) :
    List LayerInstance → List Pallet → Pallet → List Pallet
  | [], pallets, current =>
    if current.layers.isEmpty then pallets else pallets ++ [current]
  | layer :: rest, pallets, current =>
    let h := specH item_specs layer.name
    if current.current_h + h ≤ limit_h then
      stackLayers item_specs limit_h pallet_h rest pallets
        { layers := current.layers ++ [layer], current_h := current.current_h + h }
    else
      stackLayers item_specs limit_h pallet_h rest (pallets ++ [current])
        { layers := [layer], current_h := pallet_h + h }

/-- Embedding of calculate_pallet_plan (src/app.py lines 102-146).  The
pallet footprint is the configured PALLET_W and PALLET_D, passed here
explicitly. -/
def calculate_pallet_plan (pallet_w pallet_d : Int)
    (input_data_dict : List (String × ItemData)) (limit_h pallet_h : Int) :
    List Pallet × List (String × ItemSpec) :=
  let r := processItems pallet_w pallet_d input_data_dict
  (stackLayers r.2 limit_h pallet_h r.1 [] { layers := [], current_h := pallet_h }, r.2)

/-- Spec-side greedy step, written from the words of spec section 4.2 step
2: if the layer fits under the limit it joins the current pallet, otherwise
the current pallet is pushed and a fresh pallet is started at the base
height plus the layer height with that single layer. -/
def specStep (heightOf : String → Int) (limit_h pallet_h : Int)
    (st : List Pallet × Pallet) (layer : LayerInstance) : List Pallet × Pallet :=
  let h := heightOf layer.name
  if st.2.current_h + h ≤ limit_h then
    (st.1, { layers := st.2.layers ++ [layer], current_h := st.2.current_h + h })
  else
    (st.1 ++ [st.2], { layers := [layer], current_h := pallet_h + h })

/-- Spec-side planner, written from the words of spec section 4.2 step 2: a
left fold of the greedy step over the queue from an empty current pallet at
the base height, pushing the final current pallet exactly when it holds at
least one layer. -/
def specGreedyPlan (heightOf : String → Int) (limit_h pallet_h : Int)
    (queue : List LayerInstance) : List Pallet :=
  let st := queue.foldl (specStep heightOf limit_h pallet_h)
    ([], { layers := [], current_h := pallet_h })
  if st.2.layers.isEmpty then st.1 else st.1 ++ [st.2]

example : get_best_layer_pattern 1100 1100 336 336 =
    { count := 9, cols := 3, rows := 3, box_w_view := 336, box_d_view := 336,
      rotated := false } := by decide

example : get_best_layer_pattern 1100 1100 503 363 =
    { count := 6, cols := 2, rows := 3, box_w_view := 503, box_d_view := 363,
      rotated := false } := by decide

/-- C2: for positive pallet and box dimensions the selector returns the
orientation whose product cols*rows is larger, preferring the unrotated
orientation on ties, and the returned record carries the chosen cols, rows,
count = cols*rows, the placed box width and depth (swapped exactly when
rotated) and the rotated flag; in particular on the 1100x1100 pallet with a
336x336 box it returns the unrotated 3x3 pattern with count 9. -/
theorem claim_C2 (p_w p_d b_l b_w : Int)
    (h1 : 0 < p_w) (h2 : 0 < p_d) (h3 : 0 < b_l) (h4 : 0 < b_w) :
    (get_best_layer_pattern p_w p_d b_l b_w).count =
      max (p_w.fdiv b_l * p_d.fdiv b_w) (p_w.fdiv b_w * p_d.fdiv b_l) ∧
    (p_w.fdiv b_w * p_d.fdiv b_l ≤ p_w.fdiv b_l * p_d.fdiv b_w →
      get_best_layer_pattern p_w p_d b_l b_w =
        { count := p_w.fdiv b_l * p_d.fdiv b_w, cols := p_w.fdiv b_l,
          rows := p_d.fdiv b_w, box_w_view := b_l, box_d_view := b_w,
          rotated := false }) ∧
    (p_w.fdiv b_l * p_d.fdiv b_w < p_w.fdiv b_w * p_d.fdiv b_l →
      get_best_layer_pattern p_w p_d b_l b_w =
        { count := p_w.fdiv b_w * p_d.fdiv b_l, cols := p_w.fdiv b_w,
          rows := p_d.fdiv b_l, box_w_view := b_w, box_d_view := b_l,
          rotated := true }) ∧
    (get_best_layer_pattern p_w p_d b_l b_w).count =
      (get_best_layer_pattern p_w p_d b_l b_w).cols *
        (get_best_layer_pattern p_w p_d b_l b_w).rows ∧
    get_best_layer_pattern 1100 1100 336 336 =
      { count := 9, cols := 3, rows := 3, box_w_view := 336, box_d_view := 336,
        rotated := false } := by
  have hconc : get_best_layer_pattern 1100 1100 336 336 =
      { count := 9, cols := 3, rows := 3, box_w_view := 336, box_d_view := 336,
        rotated := false } := by decide
  simp only [get_best_layer_pattern, ge_iff_le]
  split
  next h =>
    exact ⟨(max_eq_left h).symm, fun h' => rfl,
      fun h' => absurd h' (not_lt.mpr h), rfl, hconc⟩
  next h =>
    have h' : p_w.fdiv b_l * p_d.fdiv b_w < p_w.fdiv b_w * p_d.fdiv b_l :=
      lt_of_not_le h
    exact ⟨(max_eq_right h'.le).symm, fun hle => absurd h' (not_lt.mpr hle),
      fun hlt => rfl, rfl, hconc⟩

/-- C2 witness: the theorem instantiated at the 1100x1100 pallet and the
336x336 box. -/
theorem claim_C2_witness :
    (0:Int) < 1100 ∧ (0:Int) < 336 ∧
    get_best_layer_pattern 1100 1100 336 336 =
      { count := 9, cols := 3, rows := 3, box_w_view := 336, box_d_view := 336,
        rotated := false } :=
  ⟨by decide, by decide,
    (claim_C2 1100 1100 336 336 (by decide) (by decide) (by decide)
      (by decide)).2.2.2.2⟩

/-- C9: for positive dimensions the selector always returns a non-negative
count, and when the box fits in neither orientation it returns count zero
rather than failing. -/
theorem claim_C9 (p_w p_d b_l b_w : Int)
    (h1 : 0 < p_w) (h2 : 0 < p_d) (h3 : 0 < b_l) (h4 : 0 < b_w) :
    0 ≤ (get_best_layer_pattern p_w p_d b_l b_w).count ∧
    ((p_w < b_l ∨ p_d < b_w) → (p_w < b_w ∨ p_d < b_l) →
      (get_best_layer_pattern p_w p_d b_l b_w).count = 0) := by
  have e1 : p_w.fdiv b_l = p_w / b_l := Int.fdiv_eq_ediv _ h3.le
  have e2 : p_d.fdiv b_w = p_d / b_w := Int.fdiv_eq_ediv _ h4.le
  have e3 : p_w.fdiv b_w = p_w / b_w := Int.fdiv_eq_ediv _ h4.le
  have e4 : p_d.fdiv b_l = p_d / b_l := Int.fdiv_eq_ediv _ h3.le
  have n1 : 0 ≤ p_w.fdiv b_l * p_d.fdiv b_w := by
    rw [e1, e2]
    exact mul_nonneg (Int.ediv_nonneg h1.le h3.le) (Int.ediv_nonneg h2.le h4.le)
  have n2 : 0 ≤ p_w.fdiv b_w * p_d.fdiv b_l := by
    rw [e3, e4]
    exact mul_nonneg (Int.ediv_nonneg h1.le h4.le) (Int.ediv_nonneg h2.le h3.le)
  constructor
  · simp only [get_best_layer_pattern, ge_iff_le]
    split
    · exact n1
    · exact n2
  · intro ha hb
    have z1 : p_w.fdiv b_l * p_d.fdiv b_w = 0 := by
      rcases ha with h | h
      · rw [e1, Int.ediv_eq_zero_of_lt h1.le h, zero_mul]
      · rw [e2, Int.ediv_eq_zero_of_lt h2.le h, mul_zero]
    have z2 : p_w.fdiv b_w * p_d.fdiv b_l = 0 := by
      rcases hb with h | h
      · rw [e3, Int.ediv_eq_zero_of_lt h1.le h, zero_mul]
      · rw [e4, Int.ediv_eq_zero_of_lt h2.le h, mul_zero]
    simp only [get_best_layer_pattern, ge_iff_le]
    split
    · exact z1
    · exact z2

/-- C9 witness: the theorem instantiated at a 100x100 pallet and a 336x500
box, which fits in neither orientation. -/
theorem claim_C9_witness :
    (0:Int) < 100 ∧ (get_best_layer_pattern 100 100 336 500).count = 0 :=
  ⟨by decide,
    (claim_C9 100 100 336 500 (by decide) (by decide) (by decide)
      (by decide)).2 (Or.inl (by decide)) (Or.inl (by decide))⟩

/-- C6: at a degenerate configuration (heightLimit at most palletBaseHeight)
the planner does not fail fast with a ConfigurationError as the spec
requires; there is no validation anywhere in calculate_pallet_plan, and on a
concrete degenerate input it returns an ordinary plan (here two pallets, the
first one empty, both above the limit). -/
theorem claim_C6_eval :
    calculate_pallet_plan 1100 1100
      [("Item-A", { L := 336, W := 336, H := 235, QTY := 9, Color := "#aaccff" })]
      100 150 =
    ([{ layers := [], current_h := 150 },
      { layers := [{ name := "Item-A", type := "full", count := 9 }],
        current_h := 385 }],
     [("Item-A",
       { h := 235, color := "#aaccff",
         pattern := { count := 9, cols := 3, rows := 3, box_w_view := 336,
                      box_d_view := 336, rotated := false },
         orig_l := 336, orig_w := 336 })]) := by decide

/-- C7 counterexample: with a single item whose layer height 1500 overflows
an empty pallet (150 + 1500 > 1550), the planner emits an empty pallet
before the pallet holding that layer, so not every output pallet holds a
layer. -/
theorem claim_C7_counterexample :
    ¬ (∀ p ∈ (calculate_pallet_plan 1100 1100
        [("Item-A", { L := 336, W := 336, H := 1500, QTY := 9, Color := "#aaccff" })]
        1550 150).1, p.layers ≠ []) := by decide

/-- C10: the selector and the planner are pure functions: two calls whose
inputs are equal componentwise return identical outputs. -/
theorem claim_C10 (pallet_w pallet_d limit_h pallet_h : Int)
    (pallet_w' pallet_d' limit_h' pallet_h' : Int)
    (items items' : List (String × ItemData)) (b_l b_w b_l' b_w' : Int)
    (hw : pallet_w = pallet_w') (hd : pallet_d = pallet_d')
    (hi : items = items') (hl : limit_h = limit_h') (hh : pallet_h = pallet_h')
    (hbl : b_l = b_l') (hbw : b_w = b_w') :
    get_best_layer_pattern pallet_w pallet_d b_l b_w =
      get_best_layer_pattern pallet_w' pallet_d' b_l' b_w' ∧
    calculate_pallet_plan pallet_w pallet_d items limit_h pallet_h =
      calculate_pallet_plan pallet_w' pallet_d' items' limit_h' pallet_h' := by
  subst hw; subst hd; subst hi; subst hl; subst hh; subst hbl; subst hbw
  exact ⟨rfl, rfl⟩

/-- C10 witness: the theorem instantiated at the default configuration. -/
theorem claim_C10_witness :
    get_best_layer_pattern 1100 1100 336 336 =
      get_best_layer_pattern 1100 1100 336 336 ∧
    calculate_pallet_plan 1100 1100 [] 1550 150 =
      calculate_pallet_plan 1100 1100 [] 1550 150 :=
  claim_C10 1100 1100 1550 150 1100 1100 1550 150 [] [] 336 336 336 336
    rfl rfl rfl rfl rfl rfl rfl

/-- The pallet accumulator is only ever appended to: running the placement
loop from any accumulated prefix equals that prefix followed by the run
from an empty accumulator. -/
theorem stackLayers_acc (specs : List (String × ItemSpec)) (limit_h pallet_h : Int) :
    ∀ (q : List LayerInstance) (pallets : List Pallet) (current : Pallet),
    stackLayers specs limit_h pallet_h q pallets current =
      pallets ++ stackLayers specs limit_h pallet_h q [] current := by
  intro q
  induction q with
  | nil =>
    intro pallets current
    simp only [stackLayers]
    split
    · simp
    · simp
  | cons layer rest ih =>
    intro pallets current
    simp only [stackLayers]
    split
    · exact ih pallets _
    · simp only [List.nil_append]
      rw [ih (pallets ++ [current]) _, ih [current] _]
      simp

/-- The placement loop is the left fold of the spec-side greedy step,
followed by the spec-side final flush. -/
theorem stackLayers_eq_foldl (specs : List (String × ItemSpec)) (limit_h pallet_h : Int) :
    ∀ (q : List LayerInstance) (pallets : List Pallet) (current : Pallet),
    stackLayers specs limit_h pallet_h q pallets current =
      (if (q.foldl (specStep (specH specs) limit_h pallet_h) (pallets, current)).2.layers.isEmpty
       then (q.foldl (specStep (specH specs) limit_h pallet_h) (pallets, current)).1
       else (q.foldl (specStep (specH specs) limit_h pallet_h) (pallets, current)).1 ++
         [(q.foldl (specStep (specH specs) limit_h pallet_h) (pallets, current)).2]) := by
  intro q
  induction q with
  | nil =>
    intro pallets current
    simp only [stackLayers, List.foldl]
  | cons layer rest ih =>
    intro pallets current
    simp only [stackLayers, List.foldl, specStep]
    split
    · exact ih pallets _
    · exact ih (pallets ++ [current]) _

/-- The layers of the produced pallets, flattened in order, are the already
accumulated layers followed by the remaining queue. -/
theorem stackLayers_flatten (specs : List (String × ItemSpec)) (limit_h pallet_h : Int) :
    ∀ (q : List LayerInstance) (pallets : List Pallet) (current : Pallet),
    ((stackLayers specs limit_h pallet_h q pallets current).map Pallet.layers).flatten =
      ((pallets.map Pallet.layers).flatten ++ current.layers) ++ q := by
  intro q
  induction q with
  | nil =>
    intro pallets current
    simp only [stackLayers]
    split
    next hemp =>
      have : current.layers = [] := by simpa using hemp
      simp [this]
    next hemp =>
      simp
  | cons layer rest ih =>
    intro pallets current
    simp only [stackLayers]
    split
    · rw [ih]
      simp
    · rw [ih]
      simp

/-- The queue built by the first loop is the concatenation, in input order,
of the fragments of the non-skipped items. -/
theorem processItems_queue (pallet_w pallet_d : Int) :
    ∀ (items : List (String × ItemData)),
    (processItems pallet_w pallet_d items).1 = items.flatMap (fun x =>
      if x.2.QTY ≤ 0 then []
      else if (get_best_layer_pattern pallet_w pallet_d x.2.L x.2.W).count = 0 then []
      else layersForItem x.1
        (get_best_layer_pattern pallet_w pallet_d x.2.L x.2.W).count x.2.QTY) := by
  intro items
  induction items with
  | nil => rfl
  | cons x rest ih =>
    obtain ⟨n, d⟩ := x
    simp only [processItems, List.flatMap_cons]
    split
    next h => simp [h, ih]
    next h =>
      split
      next h2 => simp [h, h2, ih]
      next h2 => simp [h, h2, ih]

/-- Every layer a single item contributes carries that item's name. -/
theorem layersForItem_name (n : String) (per_layer total_qty : Int) :
    ∀ x ∈ layersForItem n per_layer total_qty, x.name = n := by
  intro x hx
  simp only [layersForItem] at hx
  rcases List.mem_append.mp hx with h | h
  · rw [List.eq_of_mem_replicate h]
  · split at h
    · rw [List.mem_singleton.mp h]
    · cases h

/-- Every layer a single item contributes carries a positive count, as long
as the per-layer capacity is positive. -/
theorem layersForItem_count_pos (n : String) (per_layer total_qty : Int)
    (hP : 0 < per_layer) :
    ∀ x ∈ layersForItem n per_layer total_qty, 0 < x.count := by
  intro x hx
  simp only [layersForItem] at hx
  rcases List.mem_append.mp hx with h | h
  · rw [List.eq_of_mem_replicate h]
    exact hP
  · split at h
    next hr =>
      rw [List.mem_singleton.mp h]
      exact hr
    next hr => cases h

/-- The counts one item contributes sum to its quantity. -/
theorem layersForItem_sum (n : String) (per_layer total_qty : Int)
    (hP : 0 < per_layer) (hQ : 0 < total_qty) :
    ((layersForItem n per_layer total_qty).map LayerInstance.count).sum = total_qty := by
  have eP : total_qty.fdiv per_layer = total_qty / per_layer :=
    Int.fdiv_eq_ediv _ hP.le
  have eM : total_qty.fmod per_layer = total_qty % per_layer :=
    Int.fmod_eq_emod _ hP.le
  have hdm : per_layer * (total_qty / per_layer) + total_qty % per_layer = total_qty :=
    Int.ediv_add_emod _ _
  have hdn : 0 ≤ total_qty / per_layer := Int.ediv_nonneg hQ.le hP.le
  have hmn : 0 ≤ total_qty % per_layer := Int.emod_nonneg _ hP.ne'
  simp only [layersForItem, eP, eM, List.map_append, List.sum_append,
    List.map_replicate, List.sum_replicate, nsmul_eq_mul]
  rw [Int.toNat_of_nonneg hdn]
  split
  next hr => simp; linarith
  next hr =>
    have : total_qty % per_layer = 0 := by omega
    simp; linarith

/-- Every layer in the built queue comes from a non-skipped input item with
that layer's name. -/
theorem mem_processItems_fst (pallet_w pallet_d : Int) :
    ∀ (items : List (String × ItemData)) (l : LayerInstance),
    l ∈ (processItems pallet_w pallet_d items).1 →
    ∃ d, (l.name, d) ∈ items ∧ ¬ d.QTY ≤ 0 ∧
      (get_best_layer_pattern pallet_w pallet_d d.L d.W).count ≠ 0 := by
  intro items
  induction items with
  | nil => intro l hl; cases hl
  | cons x rest ih =>
    obtain ⟨n, d⟩ := x
    intro l hl
    simp only [processItems] at hl
    split at hl
    · obtain ⟨d', hm, hq, hc⟩ := ih l hl
      exact ⟨d', List.mem_cons_of_mem _ hm, hq, hc⟩
    · split at hl
      · obtain ⟨d', hm, hq, hc⟩ := ih l hl
        exact ⟨d', List.mem_cons_of_mem _ hm, hq, hc⟩
      · next hq hc =>
        rcases List.mem_append.mp hl with h | h
        · have hn := layersForItem_name _ _ _ _ h
          exact ⟨d, by rw [hn]; exact List.mem_cons_self _ _, hq, hc⟩
        · obtain ⟨d', hm, hq', hc'⟩ := ih l h
          exact ⟨d', List.mem_cons_of_mem _ hm, hq', hc'⟩

/-- Every entry of the produced item_specs comes from a non-skipped input
item with that entry's key. -/
theorem mem_processItems_snd (pallet_w pallet_d : Int) :
    ∀ (items : List (String × ItemData)) (s : String × ItemSpec),
    s ∈ (processItems pallet_w pallet_d items).2 →
    ∃ d, (s.1, d) ∈ items ∧ ¬ d.QTY ≤ 0 ∧
      (get_best_layer_pattern pallet_w pallet_d d.L d.W).count ≠ 0 := by
  intro items
  induction items with
  | nil => intro s hs; cases hs
  | cons x rest ih =>
    obtain ⟨n, d⟩ := x
    intro s hs
    simp only [processItems] at hs
    split at hs
    · obtain ⟨d', hm, hq, hc⟩ := ih s hs
      exact ⟨d', List.mem_cons_of_mem _ hm, hq, hc⟩
    · split at hs
      · obtain ⟨d', hm, hq, hc⟩ := ih s hs
        exact ⟨d', List.mem_cons_of_mem _ hm, hq, hc⟩
      · next hq hc =>
        rcases List.mem_cons.mp hs with h | h
        · refine ⟨d, ?_, hq, hc⟩
          rw [h]
          exact List.mem_cons_self _ _
        · obtain ⟨d', hm, hq', hc'⟩ := ih s h
          exact ⟨d', List.mem_cons_of_mem _ hm, hq', hc'⟩

/-- In an association list whose keys are distinct, a key determines its
value. -/
theorem assoc_nodup_unique :
    ∀ (items : List (String × ItemData)) (n : String) (d d' : ItemData),
    (items.map Prod.fst).Nodup → (n, d) ∈ items → (n, d') ∈ items → d = d' := by
  intro items
  induction items with
  | nil => intro n d d' _ h; cases h
  | cons x rest ih =>
    intro n d d' hn h1 h2
    have hhead : x.1 ∉ rest.map Prod.fst :=
      (List.nodup_cons.mp (by simpa using hn)).1
    have htail : (rest.map Prod.fst).Nodup :=
      (List.nodup_cons.mp (by simpa using hn)).2
    rcases List.mem_cons.mp h1 with e1 | m1
    · rcases List.mem_cons.mp h2 with e2 | m2
      · rw [← e1] at e2
        exact (Prod.mk.injEq _ _ _ _ ▸ e2).2.symm
      · exfalso
        apply hhead
        rw [← e1]
        exact List.mem_map.mpr ⟨(n, d'), m2, rfl⟩
    · rcases List.mem_cons.mp h2 with e2 | m2
      · exfalso
        apply hhead
        rw [← e2]
        exact List.mem_map.mpr ⟨(n, d), m1, rfl⟩
      · exact ih n d d' htail m1 m2

/-- With distinct item names, the sub-sequence of the queue carrying one
non-skipped item's name is exactly that item's fragment. -/
theorem queue_filter_eq (pallet_w pallet_d : Int) :
    ∀ (items : List (String × ItemData)) (n : String) (d : ItemData),
    (items.map Prod.fst).Nodup → (n, d) ∈ items → ¬ d.QTY ≤ 0 →
    (get_best_layer_pattern pallet_w pallet_d d.L d.W).count ≠ 0 →
    (processItems pallet_w pallet_d items).1.filter (fun l => l.name == n) =
      layersForItem n (get_best_layer_pattern pallet_w pallet_d d.L d.W).count d.QTY := by
  intro items
  induction items with
  | nil => intro n d _ h; cases h
  | cons x rest ih =>
    obtain ⟨m, e⟩ := x
    intro n d hn hmem hq hc
    have hhead : m ∉ rest.map Prod.fst :=
      (List.nodup_cons.mp (by simpa using hn)).1
    have htail : (rest.map Prod.fst).Nodup :=
      (List.nodup_cons.mp (by simpa using hn)).2
    rcases List.mem_cons.mp hmem with e1 | m1
    · have hm : m = n := by
        have := congrArg Prod.fst e1
        simpa using this.symm
      have hd : e = d := by
        have := congrArg Prod.snd e1
        simpa using this.symm
      subst hm
      subst hd
      simp only [processItems]
      rw [if_neg hq, if_neg hc]
      simp only [List.filter_append]
      have hfrag : (layersForItem m
          (get_best_layer_pattern pallet_w pallet_d e.L e.W).count e.QTY).filter
            (fun l => l.name == m) =
          layersForItem m (get_best_layer_pattern pallet_w pallet_d e.L e.W).count e.QTY := by
        apply List.filter_eq_self.mpr
        intro a ha
        exact beq_iff_eq.mpr (layersForItem_name _ _ _ _ ha)
      have hrest : (processItems pallet_w pallet_d rest).1.filter
          (fun l => l.name == m) = [] := by
        apply List.filter_eq_nil_iff.mpr
        intro a ha
        obtain ⟨d', hm', _, _⟩ := mem_processItems_fst pallet_w pallet_d rest a ha
        intro hcontra
        apply hhead
        have : a.name = m := beq_iff_eq.mp hcontra
        rw [← this]
        exact List.mem_map.mpr ⟨(a.name, d'), hm', rfl⟩
      rw [hfrag, hrest, List.append_nil]
    · have hmn : m ≠ n := by
        intro heq
        apply hhead
        rw [heq]
        exact List.mem_map.mpr ⟨(n, d), m1, rfl⟩
      simp only [processItems]
      split
      · exact ih n d htail m1 hq hc
      · split
        · exact ih n d htail m1 hq hc
        · simp only [List.filter_append]
          have hfrag : (layersForItem m
              (get_best_layer_pattern pallet_w pallet_d e.L e.W).count e.QTY).filter
                (fun l => l.name == n) = [] := by
            apply List.filter_eq_nil_iff.mpr
            intro a ha hcontra
            apply hmn
            rw [← layersForItem_name _ _ _ _ ha]
            exact beq_iff_eq.mp hcontra
          rw [hfrag, List.nil_append]
          exact ih n d htail m1 hq hc

/-- If every item is skipped the first loop produces nothing. -/
theorem processItems_all_skip (pallet_w pallet_d : Int) :
    ∀ (items : List (String × ItemData)),
    (∀ x ∈ items, x.2.QTY ≤ 0 ∨
      (get_best_layer_pattern pallet_w pallet_d x.2.L x.2.W).count = 0) →
    processItems pallet_w pallet_d items = ([], []) := by
  intro items
  induction items with
  | nil => intro _; rfl
  | cons x rest ih =>
    obtain ⟨n, d⟩ := x
    intro h
    have hx := h (n, d) (List.mem_cons_self _ _)
    have hrest := ih (fun y hy => h y (List.mem_cons_of_mem _ hy))
    simp only [processItems]
    rcases hx with hq | hc
    · rw [if_pos hq]
      exact hrest
    · by_cases hq : d.QTY ≤ 0
      · rw [if_pos hq]
        exact hrest
      · rw [if_neg hq, if_pos hc]
        exact hrest

/-- C3: for an item with positive quantity Q and positive per-layer
capacity P (its pattern count), the part of the queue carrying that item's
name is exactly floor(Q/P) full layers of count P followed by one remainder
layer of count Q mod P precisely when Q mod P is positive; every such count
is positive and the counts sum to Q. -/
theorem claim_C3 (pallet_w pallet_d : Int) (items : List (String × ItemData))
    (n : String) (d : ItemData)
    (hn : (items.map Prod.fst).Nodup) (hmem : (n, d) ∈ items)
    (hQ : 0 < d.QTY)
    (hP : 0 < (get_best_layer_pattern pallet_w pallet_d d.L d.W).count) :
    (processItems pallet_w pallet_d items).1.filter (fun l => l.name == n) =
      List.replicate
        (d.QTY.fdiv (get_best_layer_pattern pallet_w pallet_d d.L d.W).count).toNat
        { name := n, type := "full",
          count := (get_best_layer_pattern pallet_w pallet_d d.L d.W).count } ++
      (if d.QTY.fmod (get_best_layer_pattern pallet_w pallet_d d.L d.W).count > 0 then
        [{ name := n, type := "rem",
           count := d.QTY.fmod (get_best_layer_pattern pallet_w pallet_d d.L d.W).count }]
       else []) ∧
    (∀ l ∈ (processItems pallet_w pallet_d items).1.filter (fun l => l.name == n),
      0 < l.count) ∧
    (((processItems pallet_w pallet_d items).1.filter (fun l => l.name == n)).map
      LayerInstance.count).sum = d.QTY := by
  have hfe := queue_filter_eq pallet_w pallet_d items n d hn hmem
    (not_le.mpr hQ) hP.ne'
  refine ⟨hfe, ?_, ?_⟩
  · rw [hfe]
    exact layersForItem_count_pos n _ d.QTY hP
  · rw [hfe]
    exact layersForItem_sum n _ d.QTY hP hQ

/-- C3 witness: the theorem instantiated at the default Item-B row (quantity
13, capacity 6): the counts of its queue entries sum to 13. -/
theorem claim_C3_witness :
    (0:Int) < 13 ∧
    (((processItems 1100 1100
        [("Item-B", { L := 503, W := 363, H := 321, QTY := 13, Color := "#ffcc99" })]).1.filter
        (fun l => l.name == "Item-B")).map LayerInstance.count).sum = 13 :=
  ⟨by decide,
    (claim_C3 1100 1100
      [("Item-B", { L := 503, W := 363, H := 321, QTY := 13, Color := "#ffcc99" })]
      "Item-B" { L := 503, W := 363, H := 321, QTY := 13, Color := "#ffcc99" }
      (by decide) (by decide) (by decide) (by decide)).2.2⟩

/-- C5: the concatenation of the layer sequences of the output pallets, in
output order, is exactly the layer queue, and the queue is the
concatenation over the items, in input order, of each non-skipped item's
fragment (full layers first, remainder last). -/
theorem claim_C5 (pallet_w pallet_d limit_h pallet_h : Int)
    (items : List (String × ItemData)) :
    (((calculate_pallet_plan pallet_w pallet_d items limit_h pallet_h).1.map
        Pallet.layers).flatten = (processItems pallet_w pallet_d items).1) ∧
    ((processItems pallet_w pallet_d items).1 = items.flatMap (fun x =>
      if x.2.QTY ≤ 0 then []
      else if (get_best_layer_pattern pallet_w pallet_d x.2.L x.2.W).count = 0 then []
      else layersForItem x.1
        (get_best_layer_pattern pallet_w pallet_d x.2.L x.2.W).count x.2.QTY)) := by
  constructor
  · have h := stackLayers_flatten (processItems pallet_w pallet_d items).2
      limit_h pallet_h (processItems pallet_w pallet_d items).1 []
      { layers := [], current_h := pallet_h }
    simpa [calculate_pallet_plan] using h
  · exact processItems_queue pallet_w pallet_d items

/-- C8: with distinct item names, an item whose quantity is non-positive or
whose per-layer capacity is zero appears in neither the output pallets nor
the metadata, and an input in which every item is skipped (the empty input
included) yields zero pallets and empty metadata, with no error. -/
theorem claim_C8 (pallet_w pallet_d limit_h pallet_h : Int)
    (items : List (String × ItemData))
    (hn : (items.map Prod.fst).Nodup) :
    (∀ x ∈ items,
      (x.2.QTY ≤ 0 ∨ (get_best_layer_pattern pallet_w pallet_d x.2.L x.2.W).count = 0) →
      (∀ s ∈ (calculate_pallet_plan pallet_w pallet_d items limit_h pallet_h).2,
        s.1 ≠ x.1) ∧
      (∀ p ∈ (calculate_pallet_plan pallet_w pallet_d items limit_h pallet_h).1,
        ∀ l ∈ p.layers, l.name ≠ x.1)) ∧
    ((∀ x ∈ items,
        x.2.QTY ≤ 0 ∨ (get_best_layer_pattern pallet_w pallet_d x.2.L x.2.W).count = 0) →
      calculate_pallet_plan pallet_w pallet_d items limit_h pallet_h = ([], [])) := by
  constructor
  · intro x hx hskip
    constructor
    · intro s hs heq
      obtain ⟨d, hm, hq, hc⟩ := mem_processItems_snd pallet_w pallet_d items s hs
      rw [heq] at hm
      have hd : d = x.2 := assoc_nodup_unique items x.1 d x.2 hn hm (by simpa using hx)
      rw [hd] at hq hc
      rcases hskip with h | h
      · exact hq h
      · exact hc h
    · intro p hp l hl heq
      have hflat : ((calculate_pallet_plan pallet_w pallet_d items
          limit_h pallet_h).1.map Pallet.layers).flatten =
          (processItems pallet_w pallet_d items).1 := by
        have h := stackLayers_flatten (processItems pallet_w pallet_d items).2
          limit_h pallet_h (processItems pallet_w pallet_d items).1 []
          { layers := [], current_h := pallet_h }
        simpa [calculate_pallet_plan] using h
      have hq : l ∈ (processItems pallet_w pallet_d items).1 := by
        rw [← hflat]
        exact List.mem_flatten.mpr ⟨p.layers, List.mem_map.mpr ⟨p, hp, rfl⟩, hl⟩
      obtain ⟨d, hm, hqd, hcd⟩ := mem_processItems_fst pallet_w pallet_d items l hq
      rw [heq] at hm
      have hd : d = x.2 := assoc_nodup_unique items x.1 d x.2 hn hm (by simpa using hx)
      rw [hd] at hqd hcd
      rcases hskip with h | h
      · exact hqd h
      · exact hcd h
  · intro hall
    have hpi := processItems_all_skip pallet_w pallet_d items hall
    simp [calculate_pallet_plan, hpi, stackLayers]

/-- C8 witness: a single item too large for the pallet in both orientations
is skipped and the plan is empty. -/
theorem claim_C8_witness :
    calculate_pallet_plan 1100 1100
      [("Item-Z", { L := 2000, W := 2000, H := 100, QTY := 5, Color := "#ffffff" })]
      1550 150 = ([], []) :=
  (claim_C8 1100 1100 1550 150
    [("Item-Z", { L := 2000, W := 2000, H := 100, QTY := 5, Color := "#ffffff" })]
    (by decide)).2 (by decide)

/-- Every pallet the placement loop returns records a height equal to the
base height plus the heights of its layers, provided the accumulated state
already does. -/
theorem stackLayers_height (specs : List (String × ItemSpec)) (limit_h pallet_h : Int) :
    ∀ (q : List LayerInstance) (pallets : List Pallet) (current : Pallet),
    (∀ p ∈ pallets, p.current_h = pallet_h +
      ((p.layers.map (fun l => specH specs l.name)).sum)) →
    current.current_h = pallet_h +
      ((current.layers.map (fun l => specH specs l.name)).sum) →
    ∀ p ∈ stackLayers specs limit_h pallet_h q pallets current,
      p.current_h = pallet_h + ((p.layers.map (fun l => specH specs l.name)).sum) := by
  intro q
  induction q with
  | nil =>
    intro pallets current hp hc p hmem
    simp only [stackLayers] at hmem
    split at hmem
    · exact hp p hmem
    · rcases List.mem_append.mp hmem with h | h
      · exact hp p h
      · rw [List.mem_singleton.mp h]
        exact hc
  | cons layer rest ih =>
    intro pallets current hp hc p hmem
    simp only [stackLayers] at hmem
    split at hmem
    · refine ih pallets _ hp ?_ p hmem
      simp only [List.map_append, List.map_cons, List.map_nil, List.sum_append,
        List.sum_cons, List.sum_nil]
      omega
    · refine ih (pallets ++ [current]) _ ?_ ?_ p hmem
      · intro x hx
        rcases List.mem_append.mp hx with h | h
        · exact hp x h
        · rw [List.mem_singleton.mp h]
          exact hc
      · simp

/-- A pallet the placement loop returns exceeds the limit only when it is a
single layer taller than the available height, provided the accumulated
state already satisfies this. -/
theorem stackLayers_over (specs : List (String × ItemSpec)) (limit_h pallet_h : Int) :
    ∀ (q : List LayerInstance) (pallets : List Pallet) (current : Pallet),
    (∀ p ∈ pallets, limit_h < p.current_h →
      ∃ y, p.layers = [y] ∧ limit_h - pallet_h < specH specs y.name) →
    (current.current_h ≤ limit_h ∨
      ∃ y, current.layers = [y] ∧ current.current_h = pallet_h + specH specs y.name) →
    ∀ p ∈ stackLayers specs limit_h pallet_h q pallets current,
      limit_h < p.current_h →
        ∃ y, p.layers = [y] ∧ limit_h - pallet_h < specH specs y.name := by
  intro q
  induction q with
  | nil =>
    intro pallets current hp hc p hmem hover
    simp only [stackLayers] at hmem
    split at hmem
    · exact hp p hmem hover
    · rcases List.mem_append.mp hmem with h | h
      · exact hp p h hover
      · rw [List.mem_singleton.mp h] at hover ⊢
        rcases hc with hle | ⟨y, hy, he⟩
        · exact absurd hover (not_lt.mpr hle)
        · exact ⟨y, hy, by omega⟩
  | cons layer rest ih =>
    intro pallets current hp hc p hmem
    simp only [stackLayers] at hmem
    split at hmem
    next hfit =>
      refine ih pallets _ hp ?_ p hmem
      left
      exact hfit
    next hfit =>
      refine ih (pallets ++ [current]) _ ?_ ?_ p hmem
      · intro x hx hxover
        rcases List.mem_append.mp hx with h | h
        · exact hp x h hxover
        · rw [List.mem_singleton.mp h] at hxover ⊢
          rcases hc with hle | ⟨y, hy, he⟩
          · exact absurd hxover (not_lt.mpr hle)
          · exact ⟨y, hy, by omega⟩
      · by_cases hfits : pallet_h + specH specs layer.name ≤ limit_h
        · left
          exact hfits
        · right
          exact ⟨layer, rfl, rfl⟩

/-- C4: every output pallet's recorded height is the base height plus the
sum of its layer heights, and (when the limit exceeds the base height) a
pallet's height exceeds the limit only when the pallet is a single layer
whose height alone exceeds the available height above the base. -/
theorem claim_C4 (pallet_w pallet_d limit_h pallet_h : Int)
    (items : List (String × ItemData)) :
    (∀ p ∈ (calculate_pallet_plan pallet_w pallet_d items limit_h pallet_h).1,
      p.current_h = pallet_h + ((p.layers.map (fun l =>
        specH (calculate_pallet_plan pallet_w pallet_d items limit_h pallet_h).2
          l.name)).sum)) ∧
    (pallet_h < limit_h →
      ∀ p ∈ (calculate_pallet_plan pallet_w pallet_d items limit_h pallet_h).1,
        limit_h < p.current_h →
          ∃ y, p.layers = [y] ∧ limit_h - pallet_h <
            specH (calculate_pallet_plan pallet_w pallet_d items limit_h pallet_h).2
              y.name) := by
  constructor
  · exact stackLayers_height (processItems pallet_w pallet_d items).2 limit_h pallet_h
      (processItems pallet_w pallet_d items).1 [] { layers := [], current_h := pallet_h }
      (by intro p hp; cases hp) (by simp)
  · intro hlb
    exact stackLayers_over (processItems pallet_w pallet_d items).2 limit_h pallet_h
      (processItems pallet_w pallet_d items).1 [] { layers := [], current_h := pallet_h }
      (by intro p hp; cases hp) (Or.inl hlb.le)

/-- C4 witness: an item whose single layer of height 1500 exceeds the
available 1400 above the base sits alone on a pallet of height 1650. -/
theorem claim_C4_witness :
    ∃ y, ([{ name := "Item-A", type := "full", count := 9 }] : List LayerInstance) = [y] ∧
      (1550:Int) - 150 < specH (calculate_pallet_plan 1100 1100
        [("Item-A", { L := 336, W := 336, H := 1500, QTY := 9, Color := "#aaccff" })]
        1550 150).2 y.name :=
  (claim_C4 1100 1100 1550 150
    [("Item-A", { L := 336, W := 336, H := 1500, QTY := 9, Color := "#aaccff" })]).2
    (by decide)
    { layers := [{ name := "Item-A", type := "full", count := 9 }], current_h := 1650 }
    (by decide) (by decide)

/-- C1: under the stated preconditions the planner's pallet sequence is
exactly the result of the spec-side greedy rule folded over the layer
queue: a fitting layer joins the current pallet and raises its height,
an overflowing layer pushes the current pallet and starts a new one at the
base height plus its own height, and after the queue the current pallet is
pushed exactly when it holds at least one layer. -/
theorem claim_C1 (pallet_w pallet_d limit_h pallet_h : Int)
    (items : List (String × ItemData))
    (hlim : pallet_h < limit_h)
    (hpos : ∀ x ∈ items, 0 < x.2.L ∧ 0 < x.2.W ∧ 0 < x.2.H ∧ 0 < x.2.QTY) :
    (calculate_pallet_plan pallet_w pallet_d items limit_h pallet_h).1 =
      specGreedyPlan (specH (processItems pallet_w pallet_d items).2) limit_h pallet_h
        (processItems pallet_w pallet_d items).1 := by
  have h := stackLayers_eq_foldl (processItems pallet_w pallet_d items).2 limit_h pallet_h
    (processItems pallet_w pallet_d items).1 [] { layers := [], current_h := pallet_h }
  simpa [calculate_pallet_plan, specGreedyPlan] using h

/-- C1 witness: the theorem instantiated at the default configuration and
the default two-item table. -/
theorem claim_C1_witness :
    (calculate_pallet_plan 1100 1100
      [("Item-A", { L := 336, W := 336, H := 235, QTY := 72, Color := "#aaccff" }),
       ("Item-B", { L := 503, W := 363, H := 321, QTY := 13, Color := "#ffcc99" })]
      1550 150).1 =
      specGreedyPlan (specH (processItems 1100 1100
        [("Item-A", { L := 336, W := 336, H := 235, QTY := 72, Color := "#aaccff" }),
         ("Item-B", { L := 503, W := 363, H := 321, QTY := 13, Color := "#ffcc99" })]).2)
        1550 150
        (processItems 1100 1100
          [("Item-A", { L := 336, W := 336, H := 235, QTY := 72, Color := "#aaccff" }),
           ("Item-B", { L := 503, W := 363, H := 321, QTY := 13, Color := "#ffcc99" })]).1 :=
  claim_C1 1100 1100 1550 150
    [("Item-A", { L := 336, W := 336, H := 235, QTY := 72, Color := "#aaccff" }),
     ("Item-B", { L := 503, W := 363, H := 321, QTY := 13, Color := "#ffcc99" })]
    (by decide) (by decide)

/-- Once the accumulated pallets and the current pallet are non-empty, every
pallet the placement loop returns is non-empty. -/
theorem stackLayers_nonempty (specs : List (String × ItemSpec)) (limit_h pallet_h : Int) :
    ∀ (q : List LayerInstance) (pallets : List Pallet) (current : Pallet),
    (∀ p ∈ pallets, p.layers ≠ []) → current.layers ≠ [] →
    ∀ p ∈ stackLayers specs limit_h pallet_h q pallets current, p.layers ≠ [] := by
  intro q
  induction q with
  | nil =>
    intro pallets current hp hc p hmem
    simp only [stackLayers] at hmem
    split at hmem
    · exact hp p hmem
    · rcases List.mem_append.mp hmem with h | h
      · exact hp p h
      · rw [List.mem_singleton.mp h]
        exact hc
  | cons layer rest ih =>
    intro pallets current hp hc p hmem
    simp only [stackLayers] at hmem
    split at hmem
    · refine ih pallets _ hp ?_ p hmem
      simp
    · refine ih (pallets ++ [current]) _ ?_ (by simp) p hmem
      intro x hx
      rcases List.mem_append.mp hx with h | h
      · exact hp x h
      · rw [List.mem_singleton.mp h]
        exact hc

/-- Run from the planner's initial state, the placement loop emits an empty
pallet exactly when the very first queued layer overflows the empty current
pallet, and any empty pallet is the first one emitted. -/
theorem stackLayers_empty_iff (specs : List (String × ItemSpec)) (limit_h pallet_h : Int)
    (q : List LayerInstance) :
    (∀ p ∈ (stackLayers specs limit_h pallet_h q []
        { layers := [], current_h := pallet_h }).drop 1, p.layers ≠ []) ∧
    ((∃ p ∈ stackLayers specs limit_h pallet_h q []
        { layers := [], current_h := pallet_h }, p.layers = []) ↔
      ∃ l ls, q = l :: ls ∧ limit_h < pallet_h + specH specs l.name) := by
  cases q with
  | nil =>
    constructor
    · intro p hp
      simp [stackLayers] at hp
    · simp [stackLayers]
  | cons l ls =>
    by_cases hfit : pallet_h + specH specs l.name ≤ limit_h
    · have hout : stackLayers specs limit_h pallet_h (l :: ls) []
          { layers := [], current_h := pallet_h } =
          stackLayers specs limit_h pallet_h ls []
            { layers := [l], current_h := pallet_h + specH specs l.name } := by
        simp only [stackLayers]
        split
        · rfl
        · next h => exact absurd hfit h
      have hne := stackLayers_nonempty specs limit_h pallet_h ls []
        { layers := [l], current_h := pallet_h + specH specs l.name }
        (by intro p hp; cases hp) (by simp)
      rw [hout]
      constructor
      · intro p hp
        exact hne p (List.mem_of_mem_drop hp)
      · constructor
        · rintro ⟨p, hp, hpl⟩
          exact absurd hpl (hne p hp)
        · rintro ⟨l', ls', heq, hover⟩
          injection heq with h1 h2
          rw [← h1] at hover
          exact absurd hover (not_lt.mpr hfit)
    · have hout : stackLayers specs limit_h pallet_h (l :: ls) []
          { layers := [], current_h := pallet_h } =
          { layers := ([] : List LayerInstance), current_h := pallet_h } ::
            stackLayers specs limit_h pallet_h ls []
              { layers := [l], current_h := pallet_h + specH specs l.name } := by
        simp only [stackLayers]
        split
        · next h => exact absurd h hfit
        · rw [stackLayers_acc]
          simp
      have hne := stackLayers_nonempty specs limit_h pallet_h ls []
        { layers := [l], current_h := pallet_h + specH specs l.name }
        (by intro p hp; cases hp) (by simp)
      rw [hout]
      constructor
      · intro p hp
        simp only [List.drop_one, List.tail_cons] at hp
        exact hne p hp
      · constructor
        · intro _
          exact ⟨l, ls, rfl, not_le.mp hfit⟩
        · intro _
          exact ⟨{ layers := [], current_h := pallet_h }, List.mem_cons_self _ _, rfl⟩

/-- C7 amended: every output pallet after the first holds at least one
layer, and an empty pallet is emitted (as the first pallet) exactly when
the first queued layer already overflows the empty current pallet, that is
when palletBaseHeight plus its height exceeds heightLimit. -/
theorem claim_C7_amended (pallet_w pallet_d limit_h pallet_h : Int)
    (items : List (String × ItemData)) :
    (∀ p ∈ ((calculate_pallet_plan pallet_w pallet_d items limit_h pallet_h).1.drop 1),
      p.layers ≠ []) ∧
    ((∃ p ∈ (calculate_pallet_plan pallet_w pallet_d items limit_h pallet_h).1,
        p.layers = []) ↔
      ∃ l ls, (processItems pallet_w pallet_d items).1 = l :: ls ∧
        limit_h < pallet_h + specH (processItems pallet_w pallet_d items).2 l.name) :=
  stackLayers_empty_iff (processItems pallet_w pallet_d items).2 limit_h pallet_h
    (processItems pallet_w pallet_d items).1

/-- C7 amended witness: at the counterexample input the first queued layer
overflows the empty pallet, so an empty pallet is emitted. -/
theorem claim_C7_amended_witness :
    ∃ p ∈ (calculate_pallet_plan 1100 1100
        [("Item-A", { L := 336, W := 336, H := 1500, QTY := 9, Color := "#aaccff" })]
        1550 150).1, p.layers = [] :=
  (claim_C7_amended 1100 1100 1550 150
    [("Item-A", { L := 336, W := 336, H := 1500, QTY := 9, Color := "#aaccff" })]).2.mpr
    ⟨{ name := "Item-A", type := "full", count := 9 }, [], by decide, by decide⟩
